import Mathlib

/-!
Verification development for a blog server: an Express route layer
(`src/server/routes.ts`) over a storage layer (`src/server/storage.ts`)
holding posts and contact messages, with a markdown-file mirror of the
posts directory.  The storage state and its operations are embedded with
explicit state passing (value semantics); machine integers are `Nat`.
-/

namespace Blog

/-- JavaScript regex `\s` character class, restricted to the ASCII range
(space, tab, newline, carriage return, vertical tab, form feed). -/
def isSpaceJS (c : Char) : Bool :=
  c = ' ' || c = '\t' || c = '\n' || c = '\r' || c = '\x0b' || c = '\x0c'

/-- JavaScript regex `\w` character class: `[A-Za-z0-9_]`. -/
def isWordChar (c : Char) : Bool :=
  ('a' ≤ c && c ≤ 'z') || ('A' ≤ c && c ≤ 'Z') || ('0' ≤ c && c ≤ '9') || c = '_'

/-- `String.prototype.trim`: drop whitespace from both ends of a character list. -/
def trimJS (l : List Char) : List Char :=
  ((l.dropWhile isSpaceJS).reverse.dropWhile isSpaceJS).reverse

/-- The global replacement of each whitespace run by a hyphen: every
maximal run of whitespace becomes a single hyphen (`routes.ts` line 91). -/
def squashSpaces : List Char → List Char
  | [] => []
  | a :: rest =>
    match rest with
    | [] => if isSpaceJS a then ['-'] else [a]
    | b :: _ =>
      if isSpaceJS a && isSpaceJS b then squashSpaces rest
      else (if isSpaceJS a then '-' else a) :: squashSpaces rest

/-- The global replacement collapsing hyphen runs: every maximal run of
two or more hyphens becomes a single hyphen (`routes.ts` line 92). -/
def collapseHyphens : List Char → List Char
  | [] => []
  | a :: rest =>
    match rest with
    | [] => [a]
    | b :: _ =>
      if a = '-' && b = '-' then collapseHyphens rest
      else a :: collapseHyphens rest

/-- The character filter of `routes.ts` line 90: keep only word
characters, whitespace and hyphens; every other character is removed. -/
def keepSlugChar (c : Char) : Bool :=
  isWordChar c || isSpaceJS c || c = '-'

/-- Slug derivation from a title, `routes.ts` lines 88–93: lowercase,
strip characters outside word/whitespace/hyphen, whitespace runs to a
hyphen, collapse hyphen runs, then trim. -/
def slugify (title : String) : String :=
  String.mk (trimJS (collapseHyphens (squashSpaces
    ((title.toList.map Char.toLower).filter keepSlugChar))))

/-- A post row (`Post` of the schema, fields per spec section 3 and
`MemStorage.createPost`).  Timestamps are abstracted to `Nat`. -/
structure Post where
  id : Nat
  title : String
  slug : String
  content : String
  excerpt : Option String
  readTime : Option String
  category : Option String
  tags : Option (List String)
  status : String
  viewCount : Nat
  createdAt : Nat
  updatedAt : Nat
deriving Repr, DecidableEq

/-- Modelled from the spec: the body accepted by `insertPostSchema`
(`@shared/schema`, not under `src/`): title, content, optional slug and
optional metadata fields of a post (spec section 3). -/
structure InsertPost where
  title : String
  slug : Option String
  content : String
  excerpt : Option String
  readTime : Option String
  category : Option String
  tags : Option (List String)
  status : Option String
deriving Repr, DecidableEq

/-- A contact row (spec section 3: id, name, email, subject, message,
status unread|read, createdAt). -/
structure Contact where
  id : Nat
  name : String
  email : String
  subject : String
  message : String
  status : String
  createdAt : Nat
deriving Repr, DecidableEq

/-- Fields of a contact-form submission (`routes.ts` lines 177–182). -/
structure InsertContact where
  name : String
  email : String
  subject : String
  message : String
deriving Repr, DecidableEq

/-- The storage state of `MemStorage` (`storage.ts` lines 31–49) plus the
markdown mirror of the posts directory as a name-to-content map. -/
structure MemStorage where
  posts : List Post
  contacts : List Contact
  currentPostId : Nat
  currentContactId : Nat
  files : List (String × String)
deriving Repr, DecidableEq

/-- Serialisation of a post to its mirrored markdown file,
`MemStorage.savePostToFile` (`storage.ts` lines 152–166).  A `null` field
interpolates as the string `"null"` in the template literal. -/
def postFileContent (p : Post) : String :=
  "---\ntitle: " ++ p.title ++
  "\nexcerpt: " ++ p.excerpt.getD "null" ++
  "\nreadTime: " ++ p.readTime.getD "null" ++
  "\ncategory: " ++ p.category.getD "null" ++
  "\ntags: " ++ (p.tags.map (String.intercalate ", ")).getD "" ++
  "\nstatus: " ++ p.status ++ "\n---\n\n" ++ p.content

/-- `fs.writeFile`: overwrite the named file, creating it if absent. -/
def setFile (files : List (String × String)) (name content : String) :
    List (String × String) :=
  if files.any (fun f => f.1 = name) then
    files.map (fun f => if f.1 = name then (name, content) else f)
  else files ++ [(name, content)]

/-- `fs.unlink` via `MemStorage.deletePostFile` (`storage.ts` lines
168–175): remove the named file; a missing file is a logged no-op. -/
def removeFile (files : List (String × String)) (name : String) :
    List (String × String) :=
  files.filter (fun f => f.1 ≠ name)

/-- `MemStorage.getPostBySlug` (`storage.ts` lines 202–204): first post
whose slug matches. -/
def MemStorage.getPostBySlug (s : MemStorage) (slug : String) : Option Post :=
  s.posts.find? (fun p => p.slug = slug)

/-- `MemStorage.createPost` (`storage.ts` lines 206–226).  JavaScript
falsiness: an empty-string `excerpt`/`readTime`/`category`/`status` counts
as absent (`insertPost.x || null`, `insertPost.status || 'published'`);
an empty tags array is truthy and kept. -/
def MemStorage.createPost (s : MemStorage) (ip : InsertPost) : Post × MemStorage :=
  let orNull : Option String → Option String := fun o =>
    match o with
    | some v => if v = "" then none else some v
    | none => none
  let post : Post := {
    id := s.currentPostId
    title := ip.title
    slug := ip.slug.getD ""
    content := ip.content
    excerpt := orNull ip.excerpt
    readTime := orNull ip.readTime
    category := orNull ip.category
    tags := ip.tags
    status := match ip.status with
      | some st => if st = "" then "published" else st
      | none => "published"
    viewCount := 0
    createdAt := 0
    updatedAt := 0 }
  (post, { s with
    posts := s.posts ++ [post]
    currentPostId := s.currentPostId + 1
    files := setFile s.files (post.slug ++ ".md") (postFileContent post) })

/-- `MemStorage.deletePost` (`storage.ts` lines 243–250): remove the row
with the given id and its mirrored `slug.md` file; `false` if absent. -/
def MemStorage.deletePost (s : MemStorage) (id : Nat) : Bool × MemStorage :=
  match s.posts.find? (fun p => p.id = id) with
  | none => (false, s)
  | some post =>
    (true, { s with
      posts := s.posts.filter (fun p => p.id ≠ id)
      files := removeFile s.files (post.slug ++ ".md") })

/-- Increment the view count of the first post carrying the slug, leaving
every other post unchanged (`storage.ts` lines 252–258; the found post is
mutated in place, so exactly the first match changes). -/
def incFirst : List Post → String → List Post
  | [], _ => []
  | p :: rest, slug =>
    if p.slug = slug then { p with viewCount := p.viewCount + 1 } :: rest
    else p :: incFirst rest slug

/-- `MemStorage.incrementViewCount` (`storage.ts` lines 252–258): bump the
matching post's counter and rewrite its mirrored file; no-op when the slug
is absent. -/
def MemStorage.incrementViewCount (s : MemStorage) (slug : String) : MemStorage :=
  match s.posts.find? (fun p => p.slug = slug) with
  | none => s
  | some post =>
    { s with
      posts := incFirst s.posts slug
      files := setFile s.files (post.slug ++ ".md")
        (postFileContent { post with viewCount := post.viewCount + 1 }) }

/-- `MemStorage.createContact` (`storage.ts` lines 325–336): fresh id,
status `"unread"`. -/
def MemStorage.createContact (s : MemStorage) (ic : InsertContact) :
    Contact × MemStorage :=
  let contact : Contact := {
    id := s.currentContactId
    name := ic.name
    email := ic.email
    subject := ic.subject
    message := ic.message
    status := "unread"
    createdAt := 0 }
  (contact, { s with
    contacts := s.contacts ++ [contact]
    currentContactId := s.currentContactId + 1 })

/-- `MemStorage.markContactAsRead` (`storage.ts` lines 353–358): set the
status of the contact with the given id to `"read"`; no-op otherwise. -/
def MemStorage.markContactAsRead (s : MemStorage) (id : Nat) : MemStorage :=
  { s with contacts := s.contacts.map (fun c =>
      if c.id = id then { c with status := "read" } else c) }

/-- The slug actually used by the create route (`routes.ts` lines 86–94):
a missing or empty slug (both falsy) is derived from the title. -/
def effectiveSlug (ip : InsertPost) : String :=
  match ip.slug with
  | none => slugify ip.title
  | some sl => if sl = "" then slugify ip.title else sl

/-- The handler of `POST /api/admin/posts` on an already-valid body
(`routes.ts` lines 82–111): derive the slug when falsy, reject with 400
when a post with that slug exists, otherwise insert.  The result pairs
(status, returned post) with the new state. -/
def createPostRoute (s : MemStorage) (ip : InsertPost) :
    (Nat × Option Post) × MemStorage :=
  let eff := effectiveSlug ip
  match s.getPostBySlug eff with
  | some _ => ((400, none), s)
  | none =>
    let (post, s') := s.createPost { ip with slug := some eff }
    ((200, some post), s')

/-- The handler of `GET /api/posts/:slug` (`routes.ts` lines 26–42): look
the post up, 404 when absent, otherwise respond with the looked-up value
and then increment the view count in storage. -/
def getPostRoute (s : MemStorage) (slug : String) :
    (Nat × Option Post) × MemStorage :=
  match s.getPostBySlug slug with
  | none => ((404, none), s)
  | some post => ((200, some post), s.incrementViewCount slug)

/-- The handler of `DELETE /api/admin/posts/:id` (`routes.ts` lines
136–149): 404 when `deletePost` reports failure, success otherwise. -/
def deletePostRoute (s : MemStorage) (id : Nat) : Nat × MemStorage :=
  let (success, s') := s.deletePost id
  if success then (200, s') else (404, s')

/-- The email test of `routes.ts` line 172, the anchored pattern
"one or more non-space non-at characters, an at sign, one or more
non-space non-at characters, a dot, one or more non-space non-at
characters".  A character is acceptable when it is neither whitespace nor
the at sign; the local part is everything before the first at sign, and
the domain must contain an interior dot. -/
def okEmailChar (c : Char) : Bool := !isSpaceJS c && c ≠ '@'

/-- Whether a character is not the at sign; the local part of an email is
its longest prefix of such characters. -/
def notAt (c : Char) : Bool := c ≠ '@'

/-- Executable form of the email regex test (`routes.ts` lines 172–175). -/
def emailValid (email : String) : Bool :=
  match email.toList.dropWhile notAt with
  | [] => false
  | _ :: domain =>
    !(email.toList.takeWhile notAt).isEmpty &&
    (email.toList.takeWhile notAt).all okEmailChar &&
    domain.all okEmailChar && ((domain.drop 1).dropLast.contains '.')

/-- The handler of `POST /api/contact` (`routes.ts` lines 162–195):
require all four fields non-empty (JavaScript falsiness on strings),
require the email to pass the regex, then store a trimmed, lowercased-
email contact.  The result pairs (status, id of the new row) with the
new state. -/
def contactRoute (s : MemStorage) (name email subject message : String) :
    (Nat × Option Nat) × MemStorage :=
  if name = "" || email = "" || subject = "" || message = "" then
    ((400, none), s)
  else if !emailValid email then ((400, none), s)
  else
    let ic : InsertContact := {
      name := String.mk (trimJS name.toList)
      email := String.mk ((trimJS email.toList).map Char.toLower)
      subject := String.mk (trimJS subject.toList)
      message := String.mk (trimJS message.toList) }
    let (contact, s') := s.createContact ic
    ((200, some contact.id), s')

/-- The handler of `PATCH /api/admin/contacts/:id/read` (`routes.ts`
lines 218–226): always calls `markContactAsRead` and answers
success `true` — there is no not-found branch.  The `Bool` is the
`success` field of the JSON answer. -/
def markContactReadRoute (s : MemStorage) (id : Nat) :
    (Nat × Bool) × MemStorage :=
  ((200, true), s.markContactAsRead id)

/-- JavaScript `split` at every occurrence of a one-character separator:
an empty string yields one empty part, a trailing separator a trailing
empty part. -/
def splitChar (sep : Char) : List Char → List (List Char)
  | [] => [[]]
  | c :: rest =>
    let r := splitChar sep rest
    if c = sep then [] :: r
    else (c :: r.headD []) :: r.tail

/-- String-level wrapper of `splitChar`. -/
def splitOnChar (sep : Char) (s : String) : List String :=
  (splitChar sep s.toList).map String.mk

/-- The line decomposition used by both parsers: JavaScript
`content.split` at newlines. -/
def linesOf (content : String) : List String := splitOnChar '\n' content

/-- String-level JavaScript `trim`. -/
def trimS (s : String) : String := String.mk (trimJS s.toList)

/-- JavaScript `substring(0, n)` on a string. -/
def takeS (n : Nat) (s : String) : String := String.mk (s.toList.take n)

/-- Whether `pre` is a prefix of `s` (anchored regex and `startsWith`). -/
def startsWithS (s pre : String) : Bool := List.isPrefixOf pre.toList s.toList

/-- Split a character list at the first occurrence of a separator
sequence, returning the parts before and after it; `none` when the
separator does not occur.  This is the effect of a lazy regex group
followed by the separator. -/
def firstOccur (sep : List Char) : List Char → Option (List Char × List Char)
  | [] => none
  | c :: rest =>
    if List.isPrefixOf sep (c :: rest) then
      some ([], (c :: rest).drop sep.length)
    else
      match firstOccur sep rest with
      | none => none
      | some (pre, post) => some (c :: pre, post)

/-- Result record of both frontmatter parsers (`storage.ts` line 98 and
line 425). -/
structure ParsedMd where
  title : String
  excerpt : String
  readTime : String
  category : String
  tags : List String
  status : String
  markdown : String
deriving Repr, DecidableEq

/-- The defaults of `MemStorage.parseMarkdownFile` (`storage.ts` lines
101–107) with the whole content as body. -/
def memDefaults (content : String) : ParsedMd :=
  { title := "Untitled", excerpt := "", readTime := "5 min read",
    category := "General", tags := [], status := "published",
    markdown := content }

/-- The tags value parser of the `MemStorage` parser (`storage.ts` line
133): comma-split, trim each, drop empties. -/
def memParseTags (value : String) : List String :=
  ((splitOnChar ',' value).map trimS).filter (fun tag => tag.length > 0)

/-- One frontmatter line of the `MemStorage` parser (`storage.ts` lines
115–139): split at the colons, the key is everything before the first
colon (trimmed), the value everything after it rejoined and trimmed;
known keys assign a field, any other key is ignored. -/
def assignField (acc : ParsedMd) (line : String) : ParsedMd :=
  match splitOnChar ':' line with
  | [] => acc
  | key :: valueParts =>
    let value := trimS (String.intercalate ":" valueParts)
    if trimS key = "title" then { acc with title := value }
    else if trimS key = "excerpt" then { acc with excerpt := value }
    else if trimS key = "readTime" then { acc with readTime := value }
    else if trimS key = "category" then { acc with category := value }
    else if trimS key = "tags" then { acc with tags := memParseTags value }
    else if trimS key = "status" then { acc with status := value }
    else acc

/-- The frontmatter stage of `MemStorage.parseMarkdownFile` (`storage.ts`
lines 100–141): when the first line is a `---` delimiter and a later line
closes it, fold the header lines into the defaults and take the remaining
lines as body; otherwise everything is body with default metadata. -/
def parseFrontmatter (content : String) : ParsedMd :=
  match linesOf content with
  | [] => memDefaults content
  | first :: tail =>
    if first = "---" then
      match tail.findIdx? (fun line => line = "---") with
      | none => memDefaults content
      | some i =>
        (tail.take i).foldl assignField
          { memDefaults content with
            markdown := String.intercalate "\n" (tail.drop (i + 1)) }
    else memDefaults content

/-- The excerpt fallback of `MemStorage.parseMarkdownFile` (`storage.ts`
lines 143–147): first line of the body whose trimmed form is non-empty,
cut to 150 characters, with an ellipsis appended. -/
def excerptFromBody (markdown : String) : String :=
  match (linesOf markdown).find? (fun line => (trimS line).length > 0) with
  | some firstParagraph => takeS 150 firstParagraph ++ "..."
  | none => ""

/-- `MemStorage.parseMarkdownFile` (`storage.ts` lines 98–150): parse the
frontmatter, then generate the excerpt from the body when it is empty. -/
def parseMarkdownFile (content : String) : ParsedMd :=
  let p := parseFrontmatter content
  if p.excerpt = "" then { p with excerpt := excerptFromBody p.markdown } else p

/-- The defaults of `DatabaseStorage.parseMarkdownFile` (`storage.ts`
lines 429–438) with the whole content as body. -/
def dbDefaults (content : String) : ParsedMd :=
  { title := "Untitled", excerpt := "No excerpt available",
    readTime := "5 min read", category := "General", tags := [],
    status := "published", markdown := content }

/-- The per-key lookup of `DatabaseStorage.parseMarkdownFile`
(`storage.ts` lines 444–448), the multiline anchored regex on `key`: the
first header line that begins with `key:`; its remainder, trimmed, is the
value, otherwise the default. -/
def dbParseValue (frontmatter key dflt : String) : String :=
  match (linesOf frontmatter).find?
      (fun line => startsWithS line (key ++ ":")) with
  | some line => trimS (String.mk (line.toList.drop (key.length + 1)))
  | none => dflt

/-- `DatabaseStorage.parseMarkdownFile` (`storage.ts` lines 425–462): the
anchored regex of line 426 requires the content to start with a `---`
delimiter line and to contain a closing one; the lazy group makes the
header end at the first later occurrence of a newline-framed `---`.
Note there is no body-derived excerpt fallback in this parser: a missing
excerpt key keeps the default string. -/
def dbParseMarkdownFile (content : String) : ParsedMd :=
  if startsWithS content "---\n" then
    match firstOccur ("\n---\n".toList) (content.toList.drop 4) with
    | none => dbDefaults content
    | some (pre, post) =>
      let fm := String.mk pre
      let tagsStr := dbParseValue fm "tags" ""
      { title := dbParseValue fm "title" "Untitled"
        excerpt := dbParseValue fm "excerpt" "No excerpt available"
        readTime := dbParseValue fm "readTime" "5 min read"
        category := dbParseValue fm "category" "General"
        tags := if tagsStr = "" then []
          else (splitOnChar ',' tagsStr).map trimS
        status := dbParseValue fm "status" "published"
        markdown := String.mk post }
  else dbDefaults content

/-- Pairwise slug distinctness: every slug in the store belongs to
exactly one post. -/
def slugsUnique (posts : List Post) : Prop :=
  posts.Pairwise (fun p q => p.slug ≠ q.slug)

instance (posts : List Post) : Decidable (slugsUnique posts) := by
  unfold slugsUnique; infer_instance

/-! ### Supporting lemmas -/

lemma squashSpaces_not_space (l : List Char) :
    ∀ c ∈ squashSpaces l, isSpaceJS c = false := by
  induction l with
  | nil => intro c hc; simp [squashSpaces] at hc
  | cons a rest ih =>
    intro c hc
    cases rest with
    | nil =>
      simp only [squashSpaces] at hc
      by_cases ha : isSpaceJS a
      · simp [ha] at hc; simp [hc, isSpaceJS]
      · simp [ha] at hc; subst hc; simpa using ha
    | cons b tl =>
      simp only [squashSpaces] at hc
      by_cases hab : isSpaceJS a && isSpaceJS b
      · rw [if_pos hab] at hc; exact ih c hc
      · rw [if_neg hab] at hc
        rcases List.mem_cons.mp hc with h | h
        · by_cases ha : isSpaceJS a
          · simp [ha] at h; simp [h, isSpaceJS]
          · simp [ha] at h; subst h; simpa using ha
        · exact ih c h

lemma collapseHyphens_mem (l : List Char) :
    ∀ c ∈ collapseHyphens l, c ∈ l := by
  induction l with
  | nil => intro c hc; simp [collapseHyphens] at hc
  | cons a rest ih =>
    intro c hc
    cases rest with
    | nil => simpa [collapseHyphens] using hc
    | cons b tl =>
      simp only [collapseHyphens] at hc
      by_cases hab : a = '-' && b = '-'
      · rw [if_pos hab] at hc; exact List.mem_cons_of_mem a (ih c hc)
      · rw [if_neg hab] at hc
        rcases List.mem_cons.mp hc with h | h
        · exact h ▸ List.mem_cons_self a _
        · exact List.mem_cons_of_mem a (ih c h)

lemma trimJS_eq_self (l : List Char) (h : ∀ c ∈ l, isSpaceJS c = false) :
    trimJS l = l := by
  have h₁ : l.dropWhile isSpaceJS = l := by
    cases l with
    | nil => rfl
    | cons a rest =>
      rw [List.dropWhile_cons, if_neg]
      simp [h a (List.mem_cons_self a rest)]
  rw [trimJS, h₁]
  have h₂ : l.reverse.dropWhile isSpaceJS = l.reverse := by
    cases hr : l.reverse with
    | nil => rfl
    | cons a rest =>
      rw [List.dropWhile_cons, if_neg]
      have : a ∈ l := by
        rw [← List.mem_reverse, hr]; exact List.mem_cons_self a rest
      simp [h a this]
  rw [h₂, List.reverse_reverse]

/-- The final trim of the slug pipeline is the identity: no whitespace
survives the replacement of whitespace runs by hyphens. -/
lemma slugify_eq_pipeline (title : String) :
    slugify title = String.mk (collapseHyphens (squashSpaces
      ((title.toList.map Char.toLower).filter keepSlugChar))) := by
  unfold slugify
  congr 1
  apply trimJS_eq_self
  intro c hc
  exact squashSpaces_not_space _ c (collapseHyphens_mem _ c hc)

lemma find?_decomp {α : Type} (pred : α → Bool) (l : List α) (a : α)
    (h : l.find? pred = some a) :
    ∃ l₁ l₂, l = l₁ ++ a :: l₂ ∧ (∀ q ∈ l₁, pred q = false) ∧ pred a = true := by
  induction l with
  | nil => simp [List.find?] at h
  | cons x rest ih =>
    by_cases hx : pred x
    · rw [List.find?_cons_of_pos _ hx] at h
      injection h with h
      subst h
      exact ⟨[], rest, rfl, by simp, hx⟩
    · rw [List.find?_cons_of_neg _ (by simpa using hx)] at h
      obtain ⟨l₁, l₂, heq, hall, hp⟩ := ih h
      exact ⟨x :: l₁, l₂, by simp [heq], by
        intro q hq
        rcases List.mem_cons.mp hq with h' | h'
        · subst h'; simpa using hx
        · exact hall q h', hp⟩

lemma incFirst_cons_neg (x : Post) (L : List Post) (slug : String)
    (hx : x.slug ≠ slug) : incFirst (x :: L) slug = x :: incFirst L slug := by
  cases L <;> simp [incFirst, if_neg hx]

lemma incFirst_append (l₁ l₂ : List Post) (p : Post) (slug : String)
    (hl₁ : ∀ q ∈ l₁, q.slug ≠ slug) (hp : p.slug = slug) :
    incFirst (l₁ ++ p :: l₂) slug =
      l₁ ++ { p with viewCount := p.viewCount + 1 } :: l₂ := by
  induction l₁ with
  | nil => simp [incFirst, hp]
  | cons x rest ih =>
    have hx : x.slug ≠ slug := hl₁ x (List.mem_cons_self x rest)
    rw [List.cons_append, incFirst_cons_neg x _ _ hx,
      ih (fun q hq => hl₁ q (List.mem_cons_of_mem x hq)), List.cons_append]

lemma find?_slug_append (l₁ l₂ : List Post) (p : Post) (slug : String)
    (hl₁ : ∀ q ∈ l₁, q.slug ≠ slug) (hp : p.slug = slug) :
    (l₁ ++ p :: l₂).find? (fun q => q.slug = slug) = some p := by
  induction l₁ with
  | nil => simp [List.find?_cons_of_pos, hp]
  | cons x rest ih =>
    have hx : x.slug ≠ slug := hl₁ x (List.mem_cons_self x rest)
    rw [List.cons_append, List.find?_cons_of_neg _ (by simpa using hx)]
    exact ih (fun q hq => hl₁ q (List.mem_cons_of_mem x hq))

lemma map_id_of_no_match (l : List Contact) (id : Nat)
    (h : ∀ c ∈ l, c.id ≠ id) :
    l.map (fun c => if c.id = id then { c with status := "read" } else c) = l := by
  induction l with
  | nil => rfl
  | cons x rest ih =>
    rw [List.map_cons, if_neg (h x (List.mem_cons_self x rest)),
      ih (fun c hc => h c (List.mem_cons_of_mem x hc))]

lemma assignField_excerpt_of_other_key (acc : ParsedMd) (line : String)
    (h : trimS ((splitOnChar ':' line).headD "") ≠ "excerpt") :
    (assignField acc line).excerpt = acc.excerpt := by
  rcases hs : splitOnChar ':' line with _ | ⟨key, rest⟩
  · simp [assignField, hs]
  · rw [hs] at h
    simp only [List.headD_cons] at h
    simp only [assignField, hs]
    split_ifs <;> simp_all

lemma foldl_assignField_excerpt (L : List String) (acc : ParsedMd)
    (h : ∀ line ∈ L, trimS ((splitOnChar ':' line).headD "") ≠ "excerpt") :
    (L.foldl assignField acc).excerpt = acc.excerpt := by
  induction L generalizing acc with
  | nil => rfl
  | cons x rest ih =>
    rw [List.foldl_cons, ih _ (fun l hl => h l (List.mem_cons_of_mem x hl)),
      assignField_excerpt_of_other_key acc x (h x (List.mem_cons_self x rest))]

/-! ### Claim theorems -/

/-- C1: a `POST /api/admin/posts` request whose (possibly derived) slug
equals the slug of an existing post gets status 400 and leaves the store
untouched, so slug uniqueness of the store is preserved. -/
theorem claim1_duplicate_slug_rejected (s : MemStorage) (ip : InsertPost)
    (p : Post) (hdup : s.getPostBySlug (effectiveSlug ip) = some p)
    (huniq : slugsUnique s.posts) :
    (createPostRoute s ip).1 = (400, none) ∧
    (createPostRoute s ip).2 = s ∧
    slugsUnique (createPostRoute s ip).2.posts := by
  have h1 : createPostRoute s ip = ((400, none), s) := by
    simp only [createPostRoute, hdup]
  rw [h1]
  exact ⟨rfl, rfl, huniq⟩

def wPost : Post :=
  { id := 1, title := "Hello", slug := "hello", content := "body",
    excerpt := none, readTime := none, category := none, tags := none,
    status := "published", viewCount := 3, createdAt := 0, updatedAt := 0 }

def wStore : MemStorage :=
  { posts := [wPost], contacts := [], currentPostId := 2,
    currentContactId := 1, files := [("hello.md", "x")] }

def wInsert : InsertPost :=
  { title := "Hello", slug := some "hello", content := "other",
    excerpt := none, readTime := none, category := none, tags := none,
    status := none }

theorem claim1_witness :
    wStore.getPostBySlug (effectiveSlug wInsert) = some wPost ∧
    slugsUnique wStore.posts ∧
    ((createPostRoute wStore wInsert).1 = (400, none) ∧
     (createPostRoute wStore wInsert).2 = wStore ∧
     slugsUnique (createPostRoute wStore wInsert).2.posts) :=
  ⟨by decide, by decide,
    claim1_duplicate_slug_rejected wStore wInsert wPost (by decide) (by decide)⟩

/-- C2: a `POST /api/admin/posts` request with no explicit slug (missing
or empty, both falsy) stores a post whose slug is the title lowercased,
with characters outside word/whitespace/hyphen removed, whitespace runs
replaced by one hyphen and hyphen runs collapsed — the `trim` the code
also applies is the identity at that point. -/
theorem claim2_derived_slug (s : MemStorage) (ip : InsertPost)
    (hslug : ip.slug = none ∨ ip.slug = some "")
    (hfree : s.getPostBySlug (slugify ip.title) = none) :
    ∃ p, (createPostRoute s ip).1 = (200, some p) ∧
      (createPostRoute s ip).2.posts = s.posts ++ [p] ∧
      p.slug = String.mk (collapseHyphens (squashSpaces
        ((ip.title.toList.map Char.toLower).filter keepSlugChar))) := by
  have heff : effectiveSlug ip = slugify ip.title := by
    rcases hslug with h | h <;> simp [effectiveSlug, h]
  refine ⟨(s.createPost { ip with slug := some (slugify ip.title) }).1, ?_, ?_, ?_⟩
  · simp only [createPostRoute, heff, hfree]
  · simp only [createPostRoute, heff, hfree]
    simp [MemStorage.createPost]
  · rw [← slugify_eq_pipeline]
    simp [MemStorage.createPost]

def wInsert2 : InsertPost :=
  { title := "Hello, World!  --  Test", slug := none, content := "other",
    excerpt := none, readTime := none, category := none, tags := none,
    status := none }

theorem claim2_witness :
    (wInsert2.slug = none ∨ wInsert2.slug = some "") ∧
    wStore.getPostBySlug (slugify wInsert2.title) = none ∧
    ∃ p, (createPostRoute wStore wInsert2).1 = (200, some p) ∧
      (createPostRoute wStore wInsert2).2.posts = wStore.posts ++ [p] ∧
      p.slug = String.mk (collapseHyphens (squashSpaces
        ((wInsert2.title.toList.map Char.toLower).filter keepSlugChar))) :=
  ⟨Or.inl rfl, by decide,
    claim2_derived_slug wStore wInsert2 (Or.inl rfl) (by decide)⟩

/-- C3: `GET /api/posts/:slug` on an existing slug answers 200 with the
post and bumps exactly that post's stored view count by one, every other
post untouched; on a missing slug it answers 404 and the store is
unchanged. -/
theorem claim3_view_count_increment (s : MemStorage) (slug : String) :
    (∀ p, s.getPostBySlug slug = some p →
      (getPostRoute s slug).1 = (200, some p) ∧
      ∃ l₁ l₂, s.posts = l₁ ++ p :: l₂ ∧ (∀ q ∈ l₁, q.slug ≠ slug) ∧
        (getPostRoute s slug).2.posts =
          l₁ ++ { p with viewCount := p.viewCount + 1 } :: l₂) ∧
    (s.getPostBySlug slug = none →
      (getPostRoute s slug).1 = (404, none) ∧ (getPostRoute s slug).2 = s) := by
  constructor
  · intro p hp
    refine ⟨by simp [getPostRoute, hp], ?_⟩
    have hfind : s.posts.find? (fun q => q.slug = slug) = some p := hp
    obtain ⟨l₁, l₂, heq, hall, hpred⟩ := find?_decomp _ s.posts p hfind
    refine ⟨l₁, l₂, heq, fun q hq => by simpa using hall q hq, ?_⟩
    have hposts : (getPostRoute s slug).2.posts = incFirst s.posts slug := by
      simp [getPostRoute, hp, MemStorage.incrementViewCount, hfind]
    rw [hposts, heq]
    exact incFirst_append l₁ l₂ p slug
      (fun q hq => by simpa using hall q hq) (by simpa using hpred)
  · intro h
    constructor
    · simp [getPostRoute, h]
    · simp [getPostRoute, h]

theorem claim3_witness :
    wStore.getPostBySlug "hello" = some wPost ∧
    ((getPostRoute wStore "hello").1 = (200, some wPost) ∧
     ∃ l₁ l₂, wStore.posts = l₁ ++ wPost :: l₂ ∧ (∀ q ∈ l₁, q.slug ≠ "hello") ∧
       (getPostRoute wStore "hello").2.posts =
         l₁ ++ { wPost with viewCount := wPost.viewCount + 1 } :: l₂) :=
  ⟨by decide, (claim3_view_count_increment wStore "hello").1 wPost (by decide)⟩

/-- C4: the frontmatter parser treats content that does not begin with a
`---` line as all-body with default metadata; with delimiters, the header
lines are folded in, each split at its first colon into key and value,
the six known keys assigned (tags comma-split) and any unknown key
ignored; the `DatabaseStorage` variant likewise falls back to defaults
without a leading delimiter. -/
theorem claim4_frontmatter_parsing :
    (∀ content, (linesOf content).head? ≠ some "---" →
      parseFrontmatter content = memDefaults content) ∧
    (∀ content tail i, linesOf content = "---" :: tail →
      tail.findIdx? (fun line => line = "---") = some i →
      parseFrontmatter content = (tail.take i).foldl assignField
        { memDefaults content with
          markdown := String.intercalate "\n" (tail.drop (i + 1)) }) ∧
    (∀ acc line key rest, splitOnChar ':' line = key :: rest →
      trimS key ∉ (["title", "excerpt", "readTime", "category", "tags",
        "status"] : List String) →
      assignField acc line = acc) ∧
    (∀ acc line key rest, splitOnChar ':' line = key :: rest →
      trimS key = "title" → assignField acc line =
        { acc with title := trimS (String.intercalate ":" rest) }) ∧
    (∀ acc line key rest, splitOnChar ':' line = key :: rest →
      trimS key = "excerpt" → assignField acc line =
        { acc with excerpt := trimS (String.intercalate ":" rest) }) ∧
    (∀ acc line key rest, splitOnChar ':' line = key :: rest →
      trimS key = "readTime" → assignField acc line =
        { acc with readTime := trimS (String.intercalate ":" rest) }) ∧
    (∀ acc line key rest, splitOnChar ':' line = key :: rest →
      trimS key = "category" → assignField acc line =
        { acc with category := trimS (String.intercalate ":" rest) }) ∧
    (∀ acc line key rest, splitOnChar ':' line = key :: rest →
      trimS key = "tags" → assignField acc line =
        { acc with tags := memParseTags (trimS (String.intercalate ":" rest)) }) ∧
    (∀ acc line key rest, splitOnChar ':' line = key :: rest →
      trimS key = "status" → assignField acc line =
        { acc with status := trimS (String.intercalate ":" rest) }) ∧
    (∀ content, startsWithS content "---\n" = false →
      dbParseMarkdownFile content = dbDefaults content) := by
  refine ⟨?_, ?_, ?_, ?_, ?_, ?_, ?_, ?_, ?_, ?_⟩
  · intro content h
    unfold parseFrontmatter
    rcases hs : linesOf content with _ | ⟨first, tail⟩
    · rfl
    · rw [hs] at h
      simp only [List.head?_cons] at h
      have : first ≠ "---" := fun he => h (congrArg some he)
      simp [this]
  · intro content tail i hs hidx
    unfold parseFrontmatter
    rw [hs]
    simp [hidx]
  · intro acc line key rest hs hk
    simp only [assignField, hs]
    simp only [List.mem_cons, List.mem_singleton] at hk
    push_neg at hk
    obtain ⟨h1, h2, h3, h4, h5, h6⟩ := hk
    simp [h1, h2, h3, h4, h5, h6]
  · intro acc line key rest hs hk
    simp [assignField, hs, hk]
  · intro acc line key rest hs hk
    simp [assignField, hs, hk]
  · intro acc line key rest hs hk
    simp [assignField, hs, hk]
  · intro acc line key rest hs hk
    simp [assignField, hs, hk]
  · intro acc line key rest hs hk
    simp [assignField, hs, hk]
  · intro acc line key rest hs hk
    simp [assignField, hs, hk]
  · intro content h
    unfold dbParseMarkdownFile
    simp [h]

theorem claim4_witness :
    ((linesOf "no frontmatter\nbody").head? ≠ some "---" ∧
      parseFrontmatter "no frontmatter\nbody" =
        memDefaults "no frontmatter\nbody") ∧
    (linesOf "---\ntitle: A\nfoo: bar\n---\nBody" =
        "---" :: ["title: A", "foo: bar", "---", "Body"] ∧
      parseFrontmatter "---\ntitle: A\nfoo: bar\n---\nBody" =
        (["title: A", "foo: bar", "---", "Body"].take 2).foldl assignField
          { memDefaults "---\ntitle: A\nfoo: bar\n---\nBody" with
            markdown := String.intercalate "\n"
              (["title: A", "foo: bar", "---", "Body"].drop 3) }) ∧
    (splitOnChar ':' "foo: bar" = "foo" :: [" bar"] ∧
      assignField (memDefaults "") "foo: bar" = memDefaults "") :=
  ⟨⟨by decide, claim4_frontmatter_parsing.1 "no frontmatter\nbody" (by decide)⟩,
   ⟨by decide, (claim4_frontmatter_parsing.2.1 "---\ntitle: A\nfoo: bar\n---\nBody"
      ["title: A", "foo: bar", "---", "Body"] 2 (by decide) (by decide))⟩,
   ⟨by decide, claim4_frontmatter_parsing.2.2.1 (memDefaults "") "foo: bar"
      "foo" [" bar"] (by decide) (by decide)⟩⟩

/-- C5 counterexample: the `DatabaseStorage` parser, given frontmatter
with no excerpt key and body `"Body line"`, answers the constant default
`"No excerpt available"`, not the truncated first body line the claim
demands of both parsers. -/
theorem claim5_counterexample :
    (dbParseMarkdownFile "---\ntitle: A\n---\nBody line").markdown =
      "Body line" ∧
    (dbParseMarkdownFile "---\ntitle: A\n---\nBody line").excerpt =
      "No excerpt available" ∧
    (dbParseMarkdownFile "---\ntitle: A\n---\nBody line").excerpt ≠
      takeS 150 "Body line" ++ "..." := by
  refine ⟨by decide, by decide, by decide⟩

/-- C5 amended: the excerpt fallback (first non-blank body line cut to
150 characters plus ellipsis) belongs to the `MemStorage` parser only;
the `DatabaseStorage` parser keeps its default string
`"No excerpt available"` whenever the excerpt key is missing. -/
theorem claim5_excerpt_fallback :
    (∀ content, (parseFrontmatter content).excerpt = "" →
      (parseMarkdownFile content).excerpt =
        excerptFromBody (parseFrontmatter content).markdown) ∧
    (∀ content tail i, linesOf content = "---" :: tail →
      tail.findIdx? (fun line => line = "---") = some i →
      (∀ line ∈ tail.take i, trimS ((splitOnChar ':' line).headD "") ≠ "excerpt") →
      (parseFrontmatter content).excerpt = "") ∧
    (∀ m line, (linesOf m).find? (fun l => (trimS l).length > 0) = some line →
      excerptFromBody m = takeS 150 line ++ "...") ∧
    (∀ content, startsWithS content "---\n" = false →
      (dbParseMarkdownFile content).excerpt = "No excerpt available") ∧
    (∀ content pre post, startsWithS content "---\n" = true →
      firstOccur ("\n---\n".toList) (content.toList.drop 4) = some (pre, post) →
      (linesOf (String.mk pre)).find?
        (fun line => startsWithS line "excerpt:") = none →
      (dbParseMarkdownFile content).excerpt = "No excerpt available") := by
  refine ⟨?_, ?_, ?_, ?_, ?_⟩
  · intro content h
    simp [parseMarkdownFile, h]
  · intro content tail i hs hidx hnone
    have hres : parseFrontmatter content = (tail.take i).foldl assignField
        { memDefaults content with
          markdown := String.intercalate "\n" (tail.drop (i + 1)) } := by
      unfold parseFrontmatter
      rw [hs]
      simp [hidx]
    rw [hres, foldl_assignField_excerpt _ _ hnone]
    rfl
  · intro m line h
    simp [excerptFromBody, h]
  · intro content h
    unfold dbParseMarkdownFile
    simp only [h, Bool.false_eq_true, if_false]
    rfl
  · intro content pre post h hsplit hnokey
    unfold dbParseMarkdownFile
    rw [if_pos h, hsplit]
    simp [dbParseValue, hnokey]

theorem claim5_witness :
    ((parseFrontmatter "---\ntitle: A\n---\nBody line").excerpt = "" ∧
      (parseMarkdownFile "---\ntitle: A\n---\nBody line").excerpt =
        excerptFromBody (parseFrontmatter "---\ntitle: A\n---\nBody line").markdown) ∧
    (startsWithS "---\ntitle: A\n---\nBody line" "---\n" = true ∧
      firstOccur ("\n---\n".toList)
        ("---\ntitle: A\n---\nBody line".toList.drop 4) =
        some ("title: A".toList, "Body line".toList) ∧
      (dbParseMarkdownFile "---\ntitle: A\n---\nBody line").excerpt =
        "No excerpt available") :=
  ⟨⟨by decide, claim5_excerpt_fallback.1 "---\ntitle: A\n---\nBody line" (by decide)⟩,
   ⟨by decide, by decide,
     claim5_excerpt_fallback.2.2.2.2 "---\ntitle: A\n---\nBody line"
       "title: A".toList "Body line".toList (by decide) (by decide) (by decide)⟩⟩

/-- C6: `DELETE /api/admin/posts/:id` on an existing id answers 200,
removes that post's row (all other rows kept) and its mirrored
`slug.md` file, leaving contacts alone; on an unknown id it answers 404
with the store unchanged. -/
theorem claim6_delete_post (s : MemStorage) (id : Nat) :
    (∀ p, s.posts.find? (fun q => q.id = id) = some p →
      (deletePostRoute s id).1 = 200 ∧
      (∀ q ∈ (deletePostRoute s id).2.posts, q.id ≠ id) ∧
      (∀ q ∈ s.posts, q.id ≠ id → q ∈ (deletePostRoute s id).2.posts) ∧
      (∀ f ∈ (deletePostRoute s id).2.files, f.1 ≠ p.slug ++ ".md") ∧
      (deletePostRoute s id).2.contacts = s.contacts) ∧
    (s.posts.find? (fun q => q.id = id) = none →
      (deletePostRoute s id).1 = 404 ∧ (deletePostRoute s id).2 = s) := by
  constructor
  · intro p hp
    have hroute : deletePostRoute s id =
        (200,
          { s with
            posts := s.posts.filter (fun q => q.id ≠ id)
            files := removeFile s.files (p.slug ++ ".md") }) := by
      simp [deletePostRoute, MemStorage.deletePost, hp]
    rw [hroute]
    refine ⟨rfl, ?_, ?_, ?_, rfl⟩
    · intro q hq
      have := List.of_mem_filter hq
      simpa using this
    · intro q hq hne
      exact List.mem_filter.mpr ⟨hq, by simpa using hne⟩
    · intro f hf
      have := List.of_mem_filter hf
      simpa using this
  · intro h
    constructor
    · simp [deletePostRoute, MemStorage.deletePost, h]
    · simp [deletePostRoute, MemStorage.deletePost, h]

theorem claim6_witness :
    wStore.posts.find? (fun q => q.id = 1) = some wPost ∧
    ((deletePostRoute wStore 1).1 = 200 ∧
     (∀ q ∈ (deletePostRoute wStore 1).2.posts, q.id ≠ 1) ∧
     (∀ q ∈ wStore.posts, q.id ≠ 1 → q ∈ (deletePostRoute wStore 1).2.posts) ∧
     (∀ f ∈ (deletePostRoute wStore 1).2.files, f.1 ≠ wPost.slug ++ ".md") ∧
     (deletePostRoute wStore 1).2.contacts = wStore.contacts) :=
  ⟨by decide, (claim6_delete_post wStore 1).1 wPost (by decide)⟩

lemma emailValid_eq_false (email : String)
    (hbad : ('@' ∉ email.toList) ∨
      ('.' ∉ (email.toList.dropWhile notAt).drop 1)) :
    emailValid email = false := by
  rcases hd : email.toList.dropWhile notAt with _ | ⟨a, domain⟩
  · unfold emailValid
    simp only [hd]
  · rcases hbad with h | h
    · exfalso
      have hnil : email.toList.dropWhile notAt = [] := by
        rw [List.dropWhile_eq_nil_iff]
        intro x hx
        have hxne : x ≠ '@' := fun he => h (he ▸ hx)
        simp [notAt, hxne]
      rw [hnil] at hd
      exact List.noConfusion hd
    · rw [hd] at h
      simp only [List.drop_succ_cons, List.drop_zero] at h
      have hmem : '.' ∉ (domain.drop 1).dropLast := fun hc =>
        h ((List.drop_sublist 1 domain).subset
          ((List.dropLast_sublist _).subset hc))
      unfold emailValid
      simp only [hd]
      simp only [List.drop_one] at hmem
      simp [hmem]

/-- C7: a `POST /api/contact` request whose email has no at sign, or no
dot after the first at sign, is answered 400 and the contact store is
left unchanged. -/
theorem claim7_bad_email_rejected (s : MemStorage)
    (name email subject message : String)
    (hbad : ('@' ∉ email.toList) ∨
      ('.' ∉ (email.toList.dropWhile notAt).drop 1)) :
    (contactRoute s name email subject message).1 = (400, none) ∧
    (contactRoute s name email subject message).2.contacts = s.contacts := by
  have hval := emailValid_eq_false email hbad
  constructor <;> simp [contactRoute, hval]

theorem claim7_witness :
    ('@' ∉ "bademail".toList) ∧
    ((contactRoute wStore "Ann" "bademail" "Hi" "Text").1 = (400, none) ∧
     (contactRoute wStore "Ann" "bademail" "Hi" "Text").2.contacts =
       wStore.contacts) :=
  ⟨by decide,
    claim7_bad_email_rejected wStore "Ann" "bademail" "Hi" "Text"
      (Or.inl (by decide))⟩

/-- C8: `markContactAsRead` is idempotent — a second application is the
identity on the whole state, one application sets the addressed contact's
status to `"read"` while every other field and every other contact is
unchanged. -/
theorem claim8_mark_read_idempotent :
    (∀ (s : MemStorage) (id : Nat),
      (s.markContactAsRead id).markContactAsRead id = s.markContactAsRead id) ∧
    (∀ (s : MemStorage) (id : Nat) (c : Contact),
      c ∈ (s.markContactAsRead id).contacts → c.id = id →
      c.status = "read") ∧
    (∀ (s : MemStorage) (id : Nat) (c : Contact),
      c ∈ (s.markContactAsRead id).contacts →
      ∃ c₀ ∈ s.contacts, c₀.id = c.id ∧ c.name = c₀.name ∧
        c.email = c₀.email ∧ c.subject = c₀.subject ∧
        c.message = c₀.message ∧ c.createdAt = c₀.createdAt ∧
        (c₀.id ≠ id → c = c₀)) := by
  refine ⟨?_, ?_, ?_⟩
  · intro s id
    have hmap : (s.contacts.map (fun c =>
        if c.id = id then { c with status := "read" } else c)).map (fun c =>
        if c.id = id then { c with status := "read" } else c) =
        s.contacts.map (fun c =>
        if c.id = id then { c with status := "read" } else c) := by
      rw [List.map_map]
      apply List.map_congr_left
      intro c _
      by_cases h : c.id = id <;> simp [h]
    simp [MemStorage.markContactAsRead, hmap]
  · intro s id c hc hcid
    obtain ⟨c₀, hc₀, hfc⟩ := List.mem_map.mp hc
    by_cases h : c₀.id = id
    · rw [if_pos h] at hfc
      simp [← hfc]
    · rw [if_neg h] at hfc
      exact absurd (hfc ▸ hcid) h
  · intro s id c hc
    obtain ⟨c₀, hc₀, hfc⟩ := List.mem_map.mp hc
    refine ⟨c₀, hc₀, ?_⟩
    by_cases h : c₀.id = id
    · rw [if_pos h] at hfc
      simp [← hfc]
      intro hne
      exact absurd h hne
    · rw [if_neg h] at hfc
      simp [hfc]

def wContact : Contact :=
  { id := 1, name := "Nia", email := "n@x.co", subject := "hi",
    message := "msg", status := "unread", createdAt := 0 }

def wStoreC : MemStorage :=
  { posts := [], contacts := [wContact], currentPostId := 1,
    currentContactId := 2, files := [] }

theorem claim8_witness :
    ((wStoreC.markContactAsRead 1).markContactAsRead 1 =
      wStoreC.markContactAsRead 1) ∧
    ({ wContact with status := "read" } ∈
      (wStoreC.markContactAsRead 1).contacts ∧
     ({ wContact with status := "read" } : Contact).id = 1 ∧
     ({ wContact with status := "read" } : Contact).status = "read") :=
  ⟨claim8_mark_read_idempotent.1 wStoreC 1,
   by decide, by decide,
   claim8_mark_read_idempotent.2.1 wStoreC 1 { wContact with status := "read" }
     (by decide) (by decide)⟩

/-- C9: `PATCH /api/admin/contacts/:id/read` always answers 200 with
success `true`, and on an id no contact carries, the store is unchanged. -/
theorem claim9_mark_read_missing_id (s : MemStorage) (id : Nat) :
    (markContactReadRoute s id).1 = (200, true) ∧
    ((∀ c ∈ s.contacts, c.id ≠ id) → (markContactReadRoute s id).2 = s) := by
  refine ⟨rfl, fun h => ?_⟩
  simp [markContactReadRoute, MemStorage.markContactAsRead,
    map_id_of_no_match s.contacts id h]

theorem claim9_witness :
    (∀ c ∈ wStoreC.contacts, c.id ≠ 5) ∧
    ((markContactReadRoute wStoreC 5).1 = (200, true) ∧
     (markContactReadRoute wStoreC 5).2 = wStoreC) :=
  ⟨by decide, (claim9_mark_read_missing_id wStoreC 5).1,
    (claim9_mark_read_missing_id wStoreC 5).2 (by decide)⟩

/-- C10: the body of a successful `GET /api/posts/:slug` carries the post
as read before the increment, and afterwards the stored post under that
slug carries one more view — the response is one less than the stored
value. -/
theorem claim10_response_pre_increment (s : MemStorage) (slug : String)
    (p : Post) (h : s.getPostBySlug slug = some p) :
    (getPostRoute s slug).1.2 = some p ∧
    (getPostRoute s slug).2.getPostBySlug slug =
      some { p with viewCount := p.viewCount + 1 } := by
  refine ⟨by simp [getPostRoute, h], ?_⟩
  obtain ⟨l₁, l₂, heq, hall, hpred⟩ := find?_decomp _ s.posts p h
  have hslug : p.slug = slug := by simpa using hpred
  have hall' : ∀ q ∈ l₁, q.slug ≠ slug := fun q hq => by simpa using hall q hq
  have hfind : s.posts.find? (fun q => q.slug = slug) = some p := h
  have hposts : (getPostRoute s slug).2.posts = incFirst s.posts slug := by
    simp [getPostRoute, h, MemStorage.incrementViewCount, hfind]
  unfold MemStorage.getPostBySlug
  rw [hposts, heq, incFirst_append l₁ l₂ p slug hall' hslug]
  exact find?_slug_append l₁ l₂ _ slug hall' hslug

theorem claim10_witness :
    wStore.getPostBySlug "hello" = some wPost ∧
    ((getPostRoute wStore "hello").1.2 = some wPost ∧
     (getPostRoute wStore "hello").2.getPostBySlug "hello" =
       some { wPost with viewCount := wPost.viewCount + 1 }) :=
  ⟨by decide, claim10_response_pre_increment wStore "hello" wPost (by decide)⟩

end Blog
